import Mathlib

/-!
Verification of the SMPL discrete-event simulation engine and its
companion Park-Miller pseudo-random number generator.

The definitions below are a shallow embedding of `smpl.py`:

* Python floats (simulation times, statistics) are modelled as exact
  rationals; float literals such as `1.0e-99` denote the corresponding
  exact rational value.
* Machine-level details that the engine never observes (descriptor block
  numbers, object identity of the intrusive linked lists) are dropped:
  the linked lists become Lean lists, the facility dictionary becomes a
  partial map from block numbers to facility records.
* Python exceptions raised before any mutation are modelled by returning
  the state unchanged (the raising call has no state effect); the few
  crash points that are unreachable under the engine invariants are
  marked in comments.
* Tokens are modelled as natural numbers (the engine only compares them
  for equality); event codes and priorities are integers.
-/

/-- Result code of request and preempt: a server was reserved. -/
def RESERVED : Nat := 0

/-- Result code of request and preempt: the request was queued. -/
def QUEUED : Nat := 1

/-- A scheduled (time queue) or queued (facility queue) event record.
Mirrors the fields of the Python `EventDescriptor` class; the intrusive
`next` pointer is replaced by list structure and the debugging block
number is dropped. -/
structure EventDescriptor where
  event_code : Int
  token : Nat
  remaining_time_to_event : ℚ
  trigger_time : ℚ
  priority : Int
deriving DecidableEq

/-- A freshly constructed event descriptor (the Python constructor zeroes
every field; the unset token is represented by `0`, which is never read
before being overwritten). -/
def freshEvent : EventDescriptor :=
  { event_code := 0, token := 0, remaining_time_to_event := 0, trigger_time := 0, priority := 0 }

/-- One server of a facility, mirroring the Python `FacilityServer`. -/
structure FacilityServer where
  busy_token : Option Nat
  busy_priority : Int
  busy_time : ℚ
  release_count : Nat
  total_busy_time : ℚ
deriving DecidableEq

/-- A freshly constructed facility server. -/
def freshServer : FacilityServer :=
  { busy_token := none, busy_priority := 0, busy_time := 0, release_count := 0, total_busy_time := 0 }

/-- A facility record, mirroring the Python `FacilityData`. -/
structure FacilityData where
  name : String
  servers : List FacilityServer
  total_servers : Nat
  busy_servers : Int
  event_queue_length : Int
  head_event_descriptor : List EventDescriptor
  queue_exit_count : Nat
  preempt_count : Nat
  time_of_last_change : ℚ
  total_queueing_time : ℚ
deriving DecidableEq

/-- The output destination of the engine: unset (fresh engine), standard
output, or a caller-supplied sink identified by a number. -/
inductive Sink where
  | unset : Sink
  | stdout : Sink
  | custom : Nat → Sink
deriving DecidableEq

/-- What the Python `remevent` actually returns: the empty tuple when no
matching event exists, otherwise the (token, trigger time) pair. It never
returns Python `None`. -/
inductive RemResult where
  | emptyTuple : RemResult
  | pair : Nat → ℚ → RemResult
deriving DecidableEq

/-! ## List-level operations of the engine -/

/-- Time-queue insertion, `Smpl._enlist_evl`: scan from the head, splice
before the first entry whose trigger time is strictly greater. -/
def enlist_evl (e : EventDescriptor) : List EventDescriptor → List EventDescriptor
  | [] => [e]
  | x :: xs =>
    if e.trigger_time < x.trigger_time then e :: x :: xs
    else x :: enlist_evl e xs

/-- Facility-queue insertion, `Smpl._enlist_facility_evq`: splice before
the first entry of strictly lower priority, or of equal priority when the
inserted entry is a preempted one (positive remaining event time). -/
def enlist_facility_evq (e : EventDescriptor) : List EventDescriptor → List EventDescriptor
  | [] => [e]
  | x :: xs =>
    if x.priority < e.priority ∨ (x.priority = e.priority ∧ 0 < e.remaining_time_to_event) then
      e :: x :: xs
    else x :: enlist_facility_evq e xs

/-- Remove the first list entry satisfying the predicate, returning it
(if any) together with the remaining list. This is the scan-and-unlink
loop shared by `remevent`, `unschedule` and `_suspend`. -/
def extractFirst (p : EventDescriptor → Bool) :
    List EventDescriptor → Option EventDescriptor × List EventDescriptor
  | [] => (none, [])
  | x :: xs =>
    if p x then (some x, xs)
    else
      let r := extractFirst p xs
      (r.1, x :: r.2)

/-- First server satisfying a predicate, with its index. This is the
first-found scan of `request`, `preempt` and `release`. -/
def findServer (p : FacilityServer → Bool) :
    List FacilityServer → Option (Nat × FacilityServer)
  | [] => none
  | sv :: svs =>
    if p sv then some (0, sv)
    else (findServer p svs).map (fun j => (j.1 + 1, j.2))

/-- The victim-selection loop of `preempt`: starting from server 0, walk
the remaining servers and move to a server only when its holder priority
is strictly lower, so first-found ties go to the earliest server. The
second argument is the index of the head of the remaining list. -/
def victimGo : Nat × FacilityServer → Nat → List FacilityServer → Nat × FacilityServer
  | cur, _, [] => cur
  | cur, i, sv :: svs =>
    victimGo (if sv.busy_priority < cur.2.busy_priority then (i, sv) else cur) (i + 1) svs

/-- Number of servers whose holder is set. -/
def countBusy (l : List FacilityServer) : Nat :=
  l.countP (fun sv => sv.busy_token.isSome)

/-- Descriptor-pool pop, `Smpl._get_elm`: reuse the head of the free pool
or construct a fresh descriptor. -/
def get_elm : List EventDescriptor → EventDescriptor × List EventDescriptor
  | [] => (freshEvent, [])
  | d :: rest => (d, rest)

/-! ## The pseudo-random number generator -/

/-- Least significant 16-bit half of an integer (`get_short0`). -/
def get_short0 (int_value : Nat) : Nat :=
  int_value &&& 0x0000FFFF

/-- Most significant 16-bit half of a 32-bit integer (`get_short1`). -/
def get_short1 (int_value : Nat) : Nat :=
  (int_value >>> 16) &&& 0x0000FFFF

/-- Replace the least significant 16-bit half (`set_short0`). -/
def set_short0 (int_value short_value : Nat) : Nat :=
  (int_value &&& 0xFFFF0000) ||| (short_value &&& 0x0000FFFF)

/-- Replace the most significant 16-bit half (`set_short1`). -/
def set_short1 (int_value short_value : Nat) : Nat :=
  (int_value &&& 0x0000FFFF) ||| ((short_value <<< 16) &&& 0xFFFF0000)

/-- The PRNG state, mirroring the Python `Rand` class. -/
structure SmplRand where
  seed : Nat
  normal_z2 : ℚ
deriving DecidableEq

/-- Multiplier of the Park-Miller generator. -/
def SmplRand.A : Nat := 16807

/-- Modulus of the Park-Miller generator. -/
def SmplRand.M : Nat := 2147483647

/-- Default seeds for streams 1 to 15. -/
def SmplRand.DEFAULT_STREAMS : List Nat :=
  [1973272912, 747177549, 20464843, 640830765, 1098742207, 78126602, 84743774,
   831312807, 124667236, 1172177002, 1124933064, 1223960546, 1878892440,
   1449793615, 553303732]

/-- The float literal `4.656612875E-10` of `ranf`, as the exact rational
value it denotes. -/
def ranfScale : ℚ := 4656612875 / 10000000000000000000

/-- `SmplRand.stream`: select one of the fifteen predefined streams and clear
the cached normal draw. Out-of-range stream numbers raise in Python and
leave the state unchanged. -/
def SmplRand.stream (r : SmplRand) (stream_number : Int) : SmplRand :=
  if stream_number < 1 ∨ stream_number > 15 then r
  else
    { seed := SmplRand.DEFAULT_STREAMS.getD (stream_number - 1).toNat 0, normal_z2 := 0 }

/-- `SmplRand.ranf`: one step of the split-16-bit Park-Miller generator,
returning the updated state and the produced uniform value. A direct
transcription of the Python code. -/
def SmplRand.ranf (r : SmplRand) : SmplRand × ℚ :=
  let hi := get_short1 r.seed * SmplRand.A
  let seed1 := set_short1 r.seed 0
  let lo := seed1 * SmplRand.A
  let hi2 := hi + get_short1 lo
  let lo2 := set_short1 lo (get_short0 hi2 &&& 0x7FFF)
  let k := get_short1 hi2 <<< 1
  let k2 := if get_short0 hi2 &&& 0x8000 ≠ 0 then k + 1 else k
  let lo3 : Int := (lo2 : Int) - (SmplRand.M : Int) + (k2 : Int)
  let lo4 : Int := if lo3 < 0 then lo3 + (SmplRand.M : Int) else lo3
  ({ r with seed := lo4.toNat }, (lo4 : ℚ) * ranfScale)

/-- The seed update prescribed by the seven steps of the specification,
written from the specification text: split the seed into halves H and L,
form hi and lo, fold the carry, take k from bit 15 of the low half of hi,
and adjust lo - M + k back into range. -/
def ranfSpecSeed (S : Nat) : Nat :=
  let H := (S >>> 16) &&& 0xFFFF
  let L := S &&& 0xFFFF
  let hi := H * 16807
  let lo := L * 16807
  let hi2 := hi + ((lo >>> 16) &&& 0xFFFF)
  let lo2 := (lo &&& 0xFFFF) ||| (((hi2 &&& 0xFFFF) &&& 0x7FFF) <<< 16)
  let k := ((hi2 >>> 16) &&& 0xFFFF) <<< 1
  let k2 := if (hi2 &&& 0xFFFF) &&& 0x8000 ≠ 0 then k + 1 else k
  let lo3 : Int := (lo2 : Int) - 2147483647 + (k2 : Int)
  let lo4 : Int := if lo3 < 0 then lo3 + 2147483647 else lo3
  lo4.toNat

/-- The value returned by one call of the specified generator: the new
seed scaled by 1/(2^31 - 1), written as the literal 4.656612875e-10. -/
def ranfSpecValue (S : Nat) : ℚ :=
  (ranfSpecSeed S : ℚ) * (4656612875 / 10000000000000000000)

/-! ## The simulation engine -/

/-- The engine state, mirroring the fields of the Python `Smpl` class.
The facility dictionary is a partial map keyed by the facility's block
number (the content of the opaque `FacilityIdentifier`). -/
structure Smpl where
  rand : SmplRand
  facilities : Nat → Option FacilityData
  next_block_number : Nat
  trace_enabled : Bool
  output_stream : Sink
  start : ℚ
  next_random_number_stream : Int
  model_name : Option String
  available_event_pool_head : List EventDescriptor
  event_queue_head : List EventDescriptor
  clock : ℚ
  last_dispatched_event_code : Int
  last_dispatched_token : Option Nat

/-- The freshly constructed engine (`Smpl.__init__`). -/
def Smpl.initial : Smpl :=
  { rand := { seed := 0, normal_z2 := 0 }
    facilities := fun _ => none
    next_block_number := 0
    trace_enabled := false
    output_stream := Sink.unset
    start := 0
    next_random_number_stream := 1
    model_name := none
    available_event_pool_head := []
    event_queue_head := []
    clock := 0
    last_dispatched_event_code := 0
    last_dispatched_token := none }

/-- Store an updated facility record under its identifier. -/
def Smpl.updFac (s : Smpl) (fid : Nat) (fd : FacilityData) : Smpl :=
  { s with facilities := fun k => if k = fid then some fd else s.facilities k }

/-- `Smpl.init`: reset queues, pool, registry, clock, interval start,
trace flag and output sink, record the model name, and move the PRNG to
the next stream in the 1..15 rotation. -/
def Smpl.init (s : Smpl) (model_name : String) : Smpl :=
  { s with
    output_stream := Sink.stdout
    next_block_number := 1
    event_queue_head := []
    available_event_pool_head := []
    facilities := fun _ => none
    clock := 0
    start := 0
    last_dispatched_event_code := 0
    trace_enabled := false
    model_name := some model_name
    rand := s.rand.stream s.next_random_number_stream
    next_random_number_stream :=
      if s.next_random_number_stream + 1 > 15 then 1 else s.next_random_number_stream + 1 }

/-- `Smpl.reset`: zero all facility and server statistics and start a new
measurement interval at the current clock. -/
def Smpl.reset (s : Smpl) : Smpl :=
  { s with
    facilities := fun k =>
      (s.facilities k).map (fun fd =>
        { fd with
          queue_exit_count := 0
          preempt_count := 0
          total_queueing_time := 0
          servers := fd.servers.map (fun sv =>
            { sv with release_count := 0, total_busy_time := 0 }) })
    start := s.clock }

/-- `Smpl.schedule`: guard the delay, take a descriptor from the pool,
fill it in and insert it into the time queue. A negative delay raises in
Python before any mutation. -/
def Smpl.schedule (s : Smpl) (event_code : Int) (time_to_event : ℚ) (token : Nat) : Smpl :=
  if time_to_event < 0 then s
  else
    let r := get_elm s.available_event_pool_head
    let d := { r.1 with
      event_code := event_code
      token := token
      remaining_time_to_event := 0
      trigger_time := s.clock + time_to_event }
    { s with
      available_event_pool_head := r.2
      event_queue_head := enlist_evl d s.event_queue_head }

/-- `Smpl.cause`: dispatch the head of the time queue, advancing the
clock to its trigger time; on an empty queue return the none sentinel and
leave the state unchanged. -/
def Smpl.cause (s : Smpl) : Smpl × Option (Int × Nat) :=
  match s.event_queue_head with
  | [] => (s, none)
  | d :: rest =>
    ({ s with
        event_queue_head := rest
        last_dispatched_event_code := d.event_code
        last_dispatched_token := some d.token
        clock := d.trigger_time
        available_event_pool_head := d :: s.available_event_pool_head },
      some (d.event_code, d.token))

/-- `Smpl.remevent`: unlink the first time-queue entry with the given
event code and return its (token, trigger time) pair; when no entry
matches, the Python code returns the empty tuple. -/
def Smpl.remevent (s : Smpl) (event_code : Int) : Smpl × RemResult :=
  let r := extractFirst (fun d => d.event_code == event_code) s.event_queue_head
  match r.1 with
  | none => (s, RemResult.emptyTuple)
  | some d =>
    ({ s with
        event_queue_head := r.2
        available_event_pool_head := d :: s.available_event_pool_head },
      RemResult.pair d.token d.trigger_time)

/-- `Smpl.cancel`: delegate to `remevent`; the Python code then tests the
result against `None`, which the empty tuple is not, and indexes it, so a
miss raises IndexError instead of returning `None`. -/
def Smpl.cancel (s : Smpl) (event_code : Int) : Smpl × Except String Nat :=
  let r := s.remevent event_code
  match r.2 with
  | RemResult.emptyTuple => (r.1, Except.error "IndexError: tuple index out of range")
  | RemResult.pair token _ => (r.1, Except.ok token)

/-- `Smpl.unschedule`: unlink the first time-queue entry matching both
the event code and the token; report whether one was found. -/
def Smpl.unschedule (s : Smpl) (event_code : Int) (token : Nat) : Smpl × Bool :=
  let r := extractFirst (fun d => d.event_code == event_code && d.token == token)
    s.event_queue_head
  match r.1 with
  | none => (s, false)
  | some d =>
    ({ s with
        event_queue_head := r.2
        available_event_pool_head := d :: s.available_event_pool_head },
      true)

/-- `Smpl.facility`: register a facility with the given number of fresh
servers and return its identifier; a nonpositive server count raises in
Python. -/
def Smpl.facility (s : Smpl) (facility_name : String) (total_servers : Nat) :
    Smpl × Option Nat :=
  if total_servers = 0 then (s, none)
  else
    let blk := s.next_block_number
    let fd : FacilityData :=
      { name := facility_name
        servers := List.replicate total_servers freshServer
        total_servers := total_servers
        busy_servers := 0
        event_queue_length := 0
        head_event_descriptor := []
        queue_exit_count := 0
        preempt_count := 0
        time_of_last_change := 0
        total_queueing_time := 0 }
    ({ s with
        next_block_number := blk + (total_servers + 2)
        facilities := fun k => if k = blk then some fd else s.facilities k },
      some blk)

/-- The facility-side effect of `Smpl._enqueue`: integrate the queue-time
statistic, bump the queue length, stamp the change time, fill a pooled
descriptor and insert it into the facility queue. Returns the updated
facility together with the updated descriptor pool. -/
def enqueueFac (clock : ℚ) (fd : FacilityData) (token : Nat) (priority event_code : Int)
    (remaining_time_to_event : ℚ) (pool : List EventDescriptor) :
    FacilityData × List EventDescriptor :=
  let fd1 := { fd with
    total_queueing_time :=
      fd.total_queueing_time + (fd.event_queue_length : ℚ) * (clock - fd.time_of_last_change)
    event_queue_length := fd.event_queue_length + 1
    time_of_last_change := clock }
  let r := get_elm pool
  let d := { r.1 with
    token := token
    event_code := event_code
    remaining_time_to_event := remaining_time_to_event
    priority := priority }
  ({ fd1 with head_event_descriptor := enlist_facility_evq d fd1.head_event_descriptor }, r.2)

/-- `Smpl.request`: reserve the first free server, or enqueue the request
behind the facility when every server is busy. Returns RESERVED or
QUEUED; `none` stands for the Python error paths (unknown facility, and
the crash on a free-server scan that finds nothing, which is unreachable
when the busy count is consistent). -/
def Smpl.request (s : Smpl) (fid : Nat) (token : Nat) (priority : Int) :
    Smpl × Option Nat :=
  match s.facilities fid with
  | none => (s, none)
  | some fd =>
    if fd.busy_servers < (fd.servers.length : Int) then
      match findServer (fun sv => sv.busy_token == none) fd.servers with
      | none => (s, none)
      | some jsv =>
        let sv1 := { jsv.2 with
          busy_token := some token
          busy_priority := priority
          busy_time := s.clock }
        (s.updFac fid { fd with
            servers := fd.servers.set jsv.1 sv1
            busy_servers := fd.busy_servers + 1 },
          some RESERVED)
    else
      let r := enqueueFac s.clock fd token priority s.last_dispatched_event_code 0
        s.available_event_pool_head
      ({ (s.updFac fid r.1) with available_event_pool_head := r.2 }, some QUEUED)

/-- `Smpl.preempt`: reserve a free server if one exists; otherwise either
queue behind every holder of priority at least as high, or evict the
lowest-priority holder: suspend its pending event, enqueue a resumption
descriptor carrying the residual event time (with a 1.0e-99 substitute
for a zero residual), account the eviction, and install the preempting
token. `none` stands for the Python error paths (unknown facility, a
facility without servers, a victim scan finding no suspended event). -/
def Smpl.preempt (s : Smpl) (fid : Nat) (token : Nat) (priority : Int) :
    Smpl × Option Nat :=
  match s.facilities fid with
  | none => (s, none)
  | some fd =>
    if fd.busy_servers < (fd.servers.length : Int) then
      match findServer (fun sv => sv.busy_token == none) fd.servers with
      | none => (s, none)
      | some jsv =>
        let sv1 := { jsv.2 with
          busy_token := some token
          busy_priority := priority
          busy_time := s.clock }
        (s.updFac fid { fd with
            servers := fd.servers.set jsv.1 sv1
            busy_servers := fd.busy_servers + 1 },
          some RESERVED)
    else
      match fd.servers with
      | [] => (s, none)
      | sv0 :: svrest =>
        let jv := victimGo (0, sv0) 1 svrest
        if priority ≤ jv.2.busy_priority then
          let r := enqueueFac s.clock fd token priority s.last_dispatched_event_code 0
            s.available_event_pool_head
          ({ (s.updFac fid r.1) with available_event_pool_head := r.2 }, some QUEUED)
        else
          match jv.2.busy_token with
          | none => (s, none)
          | some preempted_token =>
            let su := extractFirst (fun d => d.token == preempted_token) s.event_queue_head
            match su.1 with
            | none => (s, none)
            | some d =>
              let residual := d.trigger_time - s.clock
              let time_to_event := if residual = 0 then (1 : ℚ) / 10 ^ 99 else residual
              let pool1 := d :: s.available_event_pool_head
              let r := enqueueFac s.clock fd preempted_token jv.2.busy_priority
                d.event_code time_to_event pool1
              let vict1 := { jv.2 with
                release_count := jv.2.release_count + 1
                total_busy_time := jv.2.total_busy_time + (s.clock - jv.2.busy_time) }
              let vict2 := { vict1 with
                busy_token := some token
                busy_priority := priority
                busy_time := s.clock }
              let fd2 := { r.1 with
                servers := (r.1.servers.set jv.1 vict1).set jv.1 vict2
                busy_servers := r.1.busy_servers - 1 + 1
                preempt_count := r.1.preempt_count + 1 }
              ({ (s.updFac fid fd2) with
                  event_queue_head := su.2
                  available_event_pool_head := r.2 },
                some RESERVED)

/-- `Smpl.release`: free the server held by the token, then drain the
facility queue head if any: an ordinary waiter (zero remaining time) is
respliced at the head of the time queue at the current clock, while a
preempted resumption immediately re-reserves the freed server and is
rescheduled after its residual time. An unknown facility or a token
holding no server raises in Python before any mutation. -/
def Smpl.release (s : Smpl) (fid : Nat) (token : Nat) : Smpl :=
  match s.facilities fid with
  | none => s
  | some fd =>
    match findServer (fun sv => sv.busy_token == some token) fd.servers with
    | none => s
    | some jsv =>
      let sv1 := { jsv.2 with
        busy_token := none
        release_count := jsv.2.release_count + 1
        total_busy_time := jsv.2.total_busy_time + (s.clock - jsv.2.busy_time) }
      let fd1 := { fd with
        servers := fd.servers.set jsv.1 sv1
        busy_servers := fd.busy_servers - 1 }
      if 0 < fd1.event_queue_length then
        match fd1.head_event_descriptor with
        | [] =>
          -- Python dereferences a missing queue node here; unreachable while
          -- the stored queue length matches the queue.
          s.updFac fid fd1
        | d :: rest =>
          let time_to_event := d.remaining_time_to_event
          let fd2 := { fd1 with
            total_queueing_time := fd1.total_queueing_time +
              (fd1.event_queue_length : ℚ) * (s.clock - fd1.time_of_last_change)
            event_queue_length := fd1.event_queue_length - 1
            queue_exit_count := fd1.queue_exit_count + 1
            time_of_last_change := s.clock
            head_event_descriptor := rest }
          if time_to_event = 0 then
            let d1 := { d with trigger_time := s.clock }
            { (s.updFac fid fd2) with event_queue_head := d1 :: s.event_queue_head }
          else
            let sv2 := { sv1 with
              busy_token := some d.token
              busy_priority := d.priority
              busy_time := s.clock }
            let fd3 := { fd2 with
              servers := fd2.servers.set jsv.1 sv2
              busy_servers := fd2.busy_servers + 1 }
            let d2 := { d with trigger_time := s.clock + time_to_event }
            { (s.updFac fid fd3) with
                event_queue_head := enlist_evl d2 s.event_queue_head }
      else
        s.updFac fid fd1

/-- `Smpl.U`: utilization of a facility over the current interval; the
division is guarded, a zero-length interval yields 0. -/
def Smpl.U (s : Smpl) (fid : Nat) : Option ℚ :=
  (s.facilities fid).map (fun fd =>
    let time_since_start := s.clock - s.start
    if 0 < time_since_start then
      (fd.servers.map FacilityServer.total_busy_time).sum / time_since_start
    else 0)

/-- `Smpl.Lq`: time-weighted mean queue length of a facility over the
current interval; the division is guarded, a zero-length interval yields
0. -/
def Smpl.Lq (s : Smpl) (fid : Nat) : Option ℚ :=
  (s.facilities fid).map (fun fd =>
    let time_since_start := s.clock - s.start
    if 0 < time_since_start then fd.total_queueing_time / time_since_start
    else 0)

/-- `Smpl.trace`: toggle trace-line emission. -/
def Smpl.trace (s : Smpl) (b : Bool) : Smpl :=
  { s with trace_enabled := b }

/-- `Smpl.sendto`: redirect the output stream to a caller-supplied sink. -/
def Smpl.sendto (s : Smpl) (dest : Nat) : Smpl :=
  { s with output_stream := Sink.custom dest }

/-! ## Operation sequences -/

/-- One public engine operation together with its arguments. -/
inductive Op where
  | init (model_name : String)
  | schedule (event_code : Int) (time_to_event : ℚ) (token : Nat)
  | cause
  | cancel (event_code : Int)
  | unschedule (event_code : Int) (token : Nat)
  | newFacility (facility_name : String) (total_servers : Nat)
  | request (fid token : Nat) (priority : Int)
  | preempt (fid token : Nat) (priority : Int)
  | release (fid token : Nat)
  | reset
  | trace (b : Bool)
  | sendto (dest : Nat)
deriving DecidableEq

/-- State effect of one public operation. -/
def Smpl.apply (s : Smpl) : Op → Smpl
  | Op.init n => s.init n
  | Op.schedule ec t tok => s.schedule ec t tok
  | Op.cause => (s.cause).1
  | Op.cancel ec => (s.cancel ec).1
  | Op.unschedule ec tok => (s.unschedule ec tok).1
  | Op.newFacility n k => (s.facility n k).1
  | Op.request fid tok p => (s.request fid tok p).1
  | Op.preempt fid tok p => (s.preempt fid tok p).1
  | Op.release fid tok => s.release fid tok
  | Op.reset => s.reset
  | Op.trace b => s.trace b
  | Op.sendto d => s.sendto d

/-- State reached from the fresh engine by a sequence of operations. -/
def Smpl.run (ops : List Op) : Smpl :=
  ops.foldl Smpl.apply Smpl.initial

/-- Which operations assign to the clock: only `cause` (advancing it to
the dispatched trigger time) and `init` (resetting it to zero). -/
def Op.touchesClock : Op → Bool
  | Op.cause => true
  | Op.init _ => true
  | _ => false

/-! ## Engine invariants -/

/-- Time-queue order on adjacent entries. -/
def TLe (a b : EventDescriptor) : Prop :=
  a.trigger_time ≤ b.trigger_time

/-- Facility-queue order on adjacent entries: strictly higher priority
first, and among equal priorities an ordinary waiter never precedes a
preempted resumption. -/
def FacR (a b : EventDescriptor) : Prop :=
  b.priority < a.priority ∨
    (a.priority = b.priority ∧
      ¬(a.remaining_time_to_event = 0 ∧ 0 < b.remaining_time_to_event))

/-- Per-facility invariant: the busy count matches the servers, the
stored queue length matches the queue, the queue is ordered, and queued
remaining times are nonnegative. -/
def FacInv (fd : FacilityData) : Prop :=
  fd.busy_servers = (countBusy fd.servers : Int) ∧
  fd.event_queue_length = (fd.head_event_descriptor.length : Int) ∧
  List.Pairwise FacR fd.head_event_descriptor ∧
  ∀ e ∈ fd.head_event_descriptor, 0 ≤ e.remaining_time_to_event

/-- Global engine invariant: the time queue is sorted by trigger time,
no pending trigger time is in the past, and every registered facility
satisfies its local invariant. -/
def SmplInv (s : Smpl) : Prop :=
  List.Pairwise TLe s.event_queue_head ∧
  (∀ e ∈ s.event_queue_head, s.clock ≤ e.trigger_time) ∧
  ∀ fid fd, s.facilities fid = some fd → FacInv fd

/-! ## Concrete example states used as witness inputs -/

/-- A facility with one server held by token 10 and one ordinary waiter
(token 20) on its queue. -/
def facC6 : FacilityData :=
  ⟨"f", [⟨some 10, 0, 0, 0, 0⟩], 1, 1, 1, [⟨0, 20, 0, 0, 0⟩], 0, 0, 0, 0⟩

/-- An engine whose facility 1 is `facC6`. -/
def stateC6 : Smpl :=
  { Smpl.initial with facilities := fun k => if k = 1 then some facC6 else none }

/-- A facility with one server held by token 10 at priority 0. -/
def facC7 : FacilityData :=
  ⟨"f", [⟨some 10, 0, 0, 0, 0⟩], 1, 1, 0, [], 0, 0, 0, 0⟩

/-- An engine whose facility 1 is `facC7` and whose time queue holds the
pending event of token 10, a tiny 1e-100 ahead of the clock. -/
def stateC7 : Smpl :=
  { Smpl.initial with
      facilities := (fun k => if k = 1 then some facC7 else none),
      event_queue_head := [⟨1, 10, 0, 1 / 10 ^ 100, 0⟩] }

/-! ## Theorems: the pseudo-random number generator -/

/-- Writing zero into the high half keeps exactly the low half. -/
theorem set_short1_zero (x : Nat) : set_short1 x 0 = x &&& 0xFFFF := by
  unfold set_short1
  simp [Nat.zero_shiftLeft, Nat.zero_and, Nat.or_zero]

/-- Shifting a 16-bit value into the high half is untouched by the
high-half mask. -/
theorem shiftLeft16_and_mask (v : Nat) (hv : v < 65536) :
    (v <<< 16) &&& 0xFFFF0000 = v <<< 16 := by
  apply Nat.eq_of_testBit_eq
  intro i
  rw [Nat.testBit_and]
  by_cases h16 : i < 16
  · have hb : (v <<< 16).testBit i = false := by
      rw [Nat.testBit_shiftLeft]
      simp [Nat.not_le.mpr h16]
    simp [hb]
  · by_cases h32 : i < 32
    · have h16' : 16 ≤ i := Nat.not_lt.mp h16
      have hm : (0xFFFF0000 : Nat).testBit i = true := by
        interval_cases i <;> decide
      simp [hm]
    · have hsmall : v <<< 16 < 2 ^ i := by
        have h1 : v <<< 16 < 2 ^ 32 := by
          rw [Nat.shiftLeft_eq]
          calc v * 2 ^ 16 < 65536 * 2 ^ 16 :=
                (Nat.mul_lt_mul_right (by norm_num : (0:Nat) < 2 ^ 16)).mpr hv
          _ = 2 ^ 32 := by norm_num
        exact lt_of_lt_of_le h1 (Nat.pow_le_pow_right (by norm_num) (by omega))
      have hb : (v <<< 16).testBit i = false := Nat.testBit_lt_two_pow hsmall
      simp [hb]

/-- Writing a value already masked to 15 bits into the high half. -/
theorem set_short1_masked (x h : Nat) :
    set_short1 x (h &&& 0x7FFF) = (x &&& 0xFFFF) ||| ((h &&& 0x7FFF) <<< 16) := by
  unfold set_short1
  rw [shiftLeft16_and_mask (h &&& 0x7FFF) (lt_of_le_of_lt Nat.and_le_right (by norm_num))]

/-- The seed update performed by the Python `ranf` coincides, for every
seed, with the seven-step update prescribed by the specification. -/
theorem ranf_seed_matches (S : Nat) (z : ℚ) :
    ((SmplRand.mk S z).ranf).1.seed = ranfSpecSeed S := by
  simp only [SmplRand.ranf, ranfSpecSeed, SmplRand.A, SmplRand.M, get_short0, get_short1,
    set_short1_zero, set_short1_masked]
  rfl

/-- The value returned by `ranf` is the updated seed scaled by the
literal 4.656612875e-10. -/
theorem ranf_value_eq (r : SmplRand) :
    (r.ranf).2 = (((r.ranf).1.seed : Nat) : ℚ) * ranfScale := by
  have key : ∀ x : Int, 0 ≤ x → ((x.toNat : Nat) : ℚ) = (x : ℚ) := by
    intro x hx
    exact_mod_cast congrArg (fun n : Int => (n : ℚ)) (Int.toNat_of_nonneg hx)
  simp only [SmplRand.ranf]
  rw [key _ (by split <;> omega)]

/-- C2: for every seed, one call of `ranf` updates the seed and returns
exactly the value prescribed by the seven-step 16-bit-split Park-Miller
algorithm of the specification; in particular, after stream(1) the first
update yields seed 1207871363, and the first output (an exact rational
here, since floats are modelled exactly) differs from the claimed decimal
0.56245893402895986 by exactly 1/(4e17), far below one binary64 ulp
(1/2^54 at this magnitude), i.e. it is that decimal at double precision. -/
theorem claim_C2_ranf_matches_spec :
    (∀ S : Nat, ∀ z : ℚ,
      ((SmplRand.mk S z).ranf).1.seed = ranfSpecSeed S ∧
      ((SmplRand.mk S z).ranf).2 = ranfSpecValue S) ∧
    (((SmplRand.mk 0 0).stream 1).ranf).1.seed = 1207871363 ∧
    (((SmplRand.mk 0 0).stream 1).ranf).2 - 56245893402895986 / 100000000000000000 =
      1 / 400000000000000000 ∧
    (1 : ℚ) / 400000000000000000 < 1 / 2 ^ 54 := by
  refine ⟨fun S z => ⟨ranf_seed_matches S z, ?_⟩, by decide, ?_, by norm_num⟩
  · rw [ranf_value_eq, ranf_seed_matches]
    rfl
  · rw [ranf_value_eq (SmplRand.stream (SmplRand.mk 0 0) 1)]
    rw [show (((SmplRand.mk 0 0).stream 1).ranf).1.seed = 1207871363 from by decide]
    rw [ranfScale]
    norm_num

/-! ## Theorems: list-level lemmas -/

/-- Membership after time-queue insertion. -/
theorem mem_enlist_evl (x e : EventDescriptor) (l : List EventDescriptor)
    (h : x ∈ enlist_evl e l) : x = e ∨ x ∈ l := by
  induction l with
  | nil =>
    rw [enlist_evl] at h
    simpa using h
  | cons y ys ih =>
    rw [enlist_evl] at h
    split at h
    · simpa using h
    · rcases List.mem_cons.mp h with h1 | h1
      · exact Or.inr (by simp [h1])
      · rcases ih h1 with h2 | h2
        · exact Or.inl h2
        · exact Or.inr (by simp [h2])

/-- Time-queue insertion preserves sortedness by trigger time. -/
theorem pairwise_enlist_evl (e : EventDescriptor) (l : List EventDescriptor)
    (hl : List.Pairwise TLe l) : List.Pairwise TLe (enlist_evl e l) := by
  induction l with
  | nil => simp [enlist_evl]
  | cons y ys ih =>
    rw [enlist_evl]
    rcases List.pairwise_cons.mp hl with ⟨hy, hys⟩
    split
    · rename_i hcond
      refine List.pairwise_cons.mpr ⟨?_, hl⟩
      intro z hz
      rcases List.mem_cons.mp hz with rfl | hz
      · exact le_of_lt hcond
      · exact le_trans (le_of_lt hcond) (hy z hz)
    · rename_i hcond
      refine List.pairwise_cons.mpr ⟨?_, ih hys⟩
      intro z hz
      rcases mem_enlist_evl z e ys hz with rfl | hz
      · exact not_lt.mp hcond
      · exact hy z hz

/-- Time-queue insertion preserves a lower bound on trigger times. -/
theorem bound_enlist_evl (c : ℚ) (e : EventDescriptor) (l : List EventDescriptor)
    (hl : ∀ x ∈ l, c ≤ x.trigger_time) (he : c ≤ e.trigger_time) :
    ∀ x ∈ enlist_evl e l, c ≤ x.trigger_time := by
  intro x hx
  rcases mem_enlist_evl x e l hx with rfl | hx
  · exact he
  · exact hl x hx

/-- Time-queue insertion goes after every entry of trigger time at most
the inserted one and before the first strictly later entry. -/
theorem enlist_evl_position (e : EventDescriptor) (l : List EventDescriptor) :
    enlist_evl e l =
      l.takeWhile (fun x => x.trigger_time ≤ e.trigger_time) ++
        e :: l.dropWhile (fun x => x.trigger_time ≤ e.trigger_time) := by
  induction l with
  | nil => simp [enlist_evl]
  | cons y ys ih =>
    rw [enlist_evl, List.takeWhile_cons, List.dropWhile_cons]
    by_cases h : e.trigger_time < y.trigger_time
    · rw [if_pos h]
      simp [not_le.mpr h]
    · rw [if_neg h]
      simp [not_lt.mp h, ih]

/-- Membership after facility-queue insertion. -/
theorem mem_enlist_facility_evq (x e : EventDescriptor) (l : List EventDescriptor)
    (h : x ∈ enlist_facility_evq e l) : x = e ∨ x ∈ l := by
  induction l with
  | nil =>
    rw [enlist_facility_evq] at h
    simpa using h
  | cons y ys ih =>
    rw [enlist_facility_evq] at h
    split at h
    · simpa using h
    · rcases List.mem_cons.mp h with h1 | h1
      · exact Or.inr (by simp [h1])
      · rcases ih h1 with h2 | h2
        · exact Or.inl h2
        · exact Or.inr (by simp [h2])

/-- The facility-queue order relation is transitive across a middle
entry with nonnegative remaining time. -/
theorem facR_trans_mid (a b c : EventDescriptor) (hb : 0 ≤ b.remaining_time_to_event)
    (h1 : FacR a b) (h2 : FacR b c) : FacR a c := by
  rcases h1 with h1 | ⟨h1e, h1r⟩
  · rcases h2 with h2 | ⟨h2e, h2r⟩
    · exact Or.inl (lt_trans h2 h1)
    · exact Or.inl (h2e ▸ h1)
  · rcases h2 with h2 | ⟨h2e, h2r⟩
    · exact Or.inl (h1e ▸ h2)
    · refine Or.inr ⟨h1e.trans h2e, ?_⟩
      rintro ⟨ha0, hc⟩
      have hbz : b.remaining_time_to_event = 0 := by
        by_contra hne
        exact h1r ⟨ha0, lt_of_le_of_ne hb (Ne.symm hne)⟩
      exact h2r ⟨hbz, hc⟩

/-- Facility-queue insertion preserves the queue order when every stored
remaining time is nonnegative. -/
theorem pairwise_enlist_facility_evq (e : EventDescriptor) (l : List EventDescriptor)
    (hl : List.Pairwise FacR l) (hrem : ∀ x ∈ l, 0 ≤ x.remaining_time_to_event) :
    List.Pairwise FacR (enlist_facility_evq e l) := by
  induction l with
  | nil => simp [enlist_facility_evq]
  | cons y ys ih =>
    rw [enlist_facility_evq]
    rcases List.pairwise_cons.mp hl with ⟨hy, hys⟩
    split
    · rename_i hcond
      have hey : FacR e y := by
        rcases hcond with h | ⟨he, hr⟩
        · exact Or.inl h
        · exact Or.inr ⟨he.symm, fun hh => absurd hh.1 (ne_of_gt hr)⟩
      refine List.pairwise_cons.mpr ⟨?_, hl⟩
      intro z hz
      rcases List.mem_cons.mp hz with rfl | hz
      · exact hey
      · exact facR_trans_mid e y z (hrem y (by simp)) hey (hy z hz)
    · rename_i hcond
      have hye : FacR y e := by
        rcases not_or.mp hcond with ⟨hnlt, hnand⟩
        rcases eq_or_lt_of_le (not_lt.mp hnlt) with heq | hlt
        · refine Or.inr ⟨heq.symm, ?_⟩
          rintro ⟨_, hpos⟩
          exact hnand ⟨heq.symm, hpos⟩
        · exact Or.inl hlt
      refine List.pairwise_cons.mpr
        ⟨?_, ih hys (fun x hx => hrem x (by simp [hx]))⟩
      intro z hz
      rcases mem_enlist_facility_evq z e ys hz with rfl | hz
      · exact hye
      · exact hy z hz

/-- Facility-queue insertion adds one entry. -/
theorem length_enlist_facility_evq (e : EventDescriptor) (l : List EventDescriptor) :
    (enlist_facility_evq e l).length = l.length + 1 := by
  induction l with
  | nil => rfl
  | cons y ys ih =>
    rw [enlist_facility_evq]
    split
    · rfl
    · simp [ih]

/-- Facility-queue insertion goes after every entry that the scan skips
and before the first entry of strictly lower priority, or of equal
priority when the inserted entry is a preempted resumption. -/
theorem enlist_facility_evq_position (e : EventDescriptor) (l : List EventDescriptor) :
    enlist_facility_evq e l =
      l.takeWhile (fun x => !(x.priority < e.priority ||
          (x.priority == e.priority && 0 < e.remaining_time_to_event))) ++
        e :: l.dropWhile (fun x => !(x.priority < e.priority ||
          (x.priority == e.priority && 0 < e.remaining_time_to_event))) := by
  induction l with
  | nil => simp [enlist_facility_evq]
  | cons y ys ih =>
    rw [enlist_facility_evq, List.takeWhile_cons, List.dropWhile_cons]
    by_cases h : y.priority < e.priority ∨ (y.priority = e.priority ∧ 0 < e.remaining_time_to_event)
    · rw [if_pos h]
      have hb : (!(y.priority < e.priority ||
          (y.priority == e.priority && 0 < e.remaining_time_to_event))) = false := by
        rcases h with h | ⟨h1, h2⟩
        · simp [h]
        · simp [h1, h2]
      simp [hb]
    · rw [if_neg h]
      have hb : (!(y.priority < e.priority ||
          (y.priority == e.priority && 0 < e.remaining_time_to_event))) = true := by
        rcases not_or.mp h with ⟨h1, h2⟩
        have h3 : y.priority = e.priority → ¬(0 < e.remaining_time_to_event) :=
          fun he hx => h2 ⟨he, hx⟩
        by_cases he : y.priority = e.priority
        · simp [h1, he, h3 he]
        · simp [h1, he]
      simp [hb, ih]

/-- What remains after an extraction was already in the list. -/
theorem extractFirst_rest_subset (p : EventDescriptor → Bool) (l : List EventDescriptor) :
    ∀ x ∈ (extractFirst p l).2, x ∈ l := by
  induction l with
  | nil => simp [extractFirst]
  | cons y ys ih =>
    intro x hx
    rw [extractFirst] at hx
    split at hx
    · exact List.mem_cons_of_mem y hx
    · rcases List.mem_cons.mp hx with rfl | hx
      · exact List.mem_cons_self x ys
      · exact List.mem_cons_of_mem y (ih x hx)

/-- An extracted entry was in the list. -/
theorem extractFirst_found_mem (p : EventDescriptor → Bool) (l : List EventDescriptor)
    (d : EventDescriptor) (h : (extractFirst p l).1 = some d) : d ∈ l := by
  induction l with
  | nil => simp [extractFirst] at h
  | cons y ys ih =>
    rw [extractFirst] at h
    split at h
    · cases h
      exact List.mem_cons_self d ys
    · exact List.mem_cons_of_mem y (ih h)

/-- Extraction preserves any pairwise relation. -/
theorem pairwise_extractFirst (R : EventDescriptor → EventDescriptor → Prop)
    (p : EventDescriptor → Bool) (l : List EventDescriptor)
    (hl : List.Pairwise R l) : List.Pairwise R (extractFirst p l).2 := by
  induction l with
  | nil => simp [extractFirst]
  | cons y ys ih =>
    rcases List.pairwise_cons.mp hl with ⟨hy, hys⟩
    rw [extractFirst]
    split
    · exact hys
    · refine List.pairwise_cons.mpr ⟨?_, ih hys⟩
      intro z hz
      exact hy z (extractFirst_rest_subset p ys z hz)

/-- Setting a list element exchanges its predicate contribution. -/
theorem countP_set_exchange (p : FacilityServer → Bool) (l : List FacilityServer)
    (j : Nat) (x y : FacilityServer) (hy : l[j]? = some y) :
    (l.set j x).countP p + (if p y then 1 else 0) =
      l.countP p + (if p x then 1 else 0) := by
  induction l generalizing j with
  | nil => simp at hy
  | cons a as ih =>
    cases j with
    | zero =>
      simp only [List.getElem?_cons_zero, Option.some.injEq] at hy
      subst hy
      simp only [List.set_cons_zero, List.countP_cons]
      omega
    | succ n =>
      simp only [List.getElem?_cons_succ] at hy
      simp only [List.set_cons_succ, List.countP_cons]
      have := ih n hy
      omega

/-- The first-found server scan returns the element at the returned
index, and that element satisfies the predicate. -/
theorem findServer_spec (p : FacilityServer → Bool) (l : List FacilityServer)
    (j : Nat) (sv : FacilityServer) (h : findServer p l = some (j, sv)) :
    l[j]? = some sv ∧ p sv = true := by
  induction l generalizing j sv with
  | nil => simp [findServer] at h
  | cons a as ih =>
    rw [findServer] at h
    split at h
    · rename_i hp
      cases h
      exact ⟨by simp, hp⟩
    · rcases Option.map_eq_some'.mp h with ⟨⟨j', sv'⟩, hfs, heq⟩
      cases heq
      have := ih j' sv' hfs
      simpa using this

/-- The victim scan of `preempt` returns the element at the returned
index of the full server list. -/
theorem victimGo_spec (orig : List FacilityServer) (rest : List FacilityServer) :
    ∀ (i : Nat) (cur : Nat × FacilityServer),
      orig[cur.1]? = some cur.2 → orig.drop i = rest →
      orig[(victimGo cur i rest).1]? = some (victimGo cur i rest).2 := by
  induction rest with
  | nil =>
    intro i cur hcur _
    simpa [victimGo] using hcur
  | cons sv svs ih =>
    intro i cur hcur hdrop
    rw [victimGo]
    refine ih (i + 1) _ ?_ ?_
    · split
      · have h0 : (orig.drop i)[0]? = some sv := by rw [hdrop]; simp
        rw [List.getElem?_drop] at h0
        simpa using h0
      · exact hcur
    · have := congrArg List.tail hdrop
      rw [List.tail_drop] at this
      simpa using this

/-- When the busy count equals the number of servers, every server is
held. -/
theorem all_busy_of_count (l : List FacilityServer) (h : countBusy l = l.length) :
    ∀ sv ∈ l, sv.busy_token.isSome = true := by
  intro sv hsv
  exact List.countP_eq_length.mp h sv hsv

/-! ## Theorems: preservation of the engine invariant -/

theorem smplInv_initial : SmplInv Smpl.initial := by
  refine ⟨?_, ?_, ?_⟩
  · simp [Smpl.initial]
  · simp [Smpl.initial]
  · intro fid fd h
    simp [Smpl.initial] at h

theorem smplInv_init (s : Smpl) (n : String) (_hs : SmplInv s) : SmplInv (s.init n) := by
  refine ⟨?_, ?_, ?_⟩
  · simp [Smpl.init]
  · simp [Smpl.init]
  · intro fid fd h
    simp [Smpl.init] at h

theorem smplInv_trace (s : Smpl) (b : Bool) (hs : SmplInv s) : SmplInv (s.trace b) := by
  rcases hs with ⟨h1, h2, h3⟩
  exact ⟨h1, h2, h3⟩

theorem smplInv_sendto (s : Smpl) (d : Nat) (hs : SmplInv s) : SmplInv (s.sendto d) := by
  rcases hs with ⟨h1, h2, h3⟩
  exact ⟨h1, h2, h3⟩

theorem smplInv_reset (s : Smpl) (hs : SmplInv s) : SmplInv s.reset := by
  rcases hs with ⟨h1, h2, h3⟩
  refine ⟨h1, h2, ?_⟩
  intro fid fd h
  simp only [Smpl.reset, Option.map_eq_some'] at h
  rcases h with ⟨fd0, hfd0, rfl⟩
  rcases h3 fid fd0 hfd0 with ⟨c1, c2, c3, c4⟩
  refine ⟨?_, c2, c3, c4⟩
  rw [c1]
  simp only [Int.natCast_inj]
  unfold countBusy
  rw [List.countP_map]
  rfl

theorem smplInv_schedule (s : Smpl) (ec : Int) (t : ℚ) (tok : Nat) (hs : SmplInv s) :
    SmplInv (s.schedule ec t tok) := by
  rcases hs with ⟨h1, h2, h3⟩
  unfold Smpl.schedule
  split
  · exact ⟨h1, h2, h3⟩
  · rename_i ht
    refine ⟨pairwise_enlist_evl _ _ h1, ?_, h3⟩
    refine bound_enlist_evl s.clock _ _ h2 ?_
    exact le_add_of_nonneg_right (not_lt.mp ht)

theorem smplInv_cause (s : Smpl) (hs : SmplInv s) : SmplInv (s.cause).1 := by
  rcases hs with ⟨h1, h2, h3⟩
  rcases hq : s.event_queue_head with _ | ⟨d, rest⟩
  · simp only [Smpl.cause, hq]
    exact ⟨by rw [hq]; exact List.Pairwise.nil, by rw [hq]; simp, h3⟩
  · rw [hq] at h1
    rcases List.pairwise_cons.mp h1 with ⟨hd, hrest⟩
    simp only [Smpl.cause, hq]
    exact ⟨hrest, fun e he => hd e he, h3⟩

theorem smplInv_remevent (s : Smpl) (ec : Int) (hs : SmplInv s) :
    SmplInv (s.remevent ec).1 := by
  rcases hs with ⟨h1, h2, h3⟩
  have hpw := pairwise_extractFirst TLe (fun d => d.event_code == ec) s.event_queue_head h1
  have hsub := extractFirst_rest_subset (fun d => d.event_code == ec) s.event_queue_head
  rcases hr : extractFirst (fun d => d.event_code == ec) s.event_queue_head with ⟨o, rest⟩
  rw [hr] at hpw hsub
  rcases o with _ | d
  · unfold Smpl.remevent
    simp only [hr]
    exact ⟨h1, h2, h3⟩
  · unfold Smpl.remevent
    simp only [hr]
    exact ⟨hpw, fun e he => h2 e (hsub e he), h3⟩

theorem smplInv_cancel (s : Smpl) (ec : Int) (hs : SmplInv s) :
    SmplInv (s.cancel ec).1 := by
  have h := smplInv_remevent s ec hs
  rcases hr : s.remevent ec with ⟨s1, res⟩
  rw [hr] at h
  rcases res with _ | ⟨tok, tt⟩
  · unfold Smpl.cancel
    simp only [hr]
    exact h
  · unfold Smpl.cancel
    simp only [hr]
    exact h

theorem smplInv_unschedule (s : Smpl) (ec : Int) (tok : Nat) (hs : SmplInv s) :
    SmplInv (s.unschedule ec tok).1 := by
  rcases hs with ⟨h1, h2, h3⟩
  have hpw := pairwise_extractFirst TLe (fun d => d.event_code == ec && d.token == tok)
    s.event_queue_head h1
  have hsub := extractFirst_rest_subset (fun d => d.event_code == ec && d.token == tok)
    s.event_queue_head
  rcases hr : extractFirst (fun d => d.event_code == ec && d.token == tok)
      s.event_queue_head with ⟨o, rest⟩
  rw [hr] at hpw hsub
  rcases o with _ | d
  · unfold Smpl.unschedule
    simp only [hr]
    exact ⟨h1, h2, h3⟩
  · unfold Smpl.unschedule
    simp only [hr]
    exact ⟨hpw, fun e he => h2 e (hsub e he), h3⟩

theorem facInv_fresh (name : String) (n : Nat) :
    FacInv { name := name, servers := List.replicate n freshServer, total_servers := n,
             busy_servers := 0, event_queue_length := 0, head_event_descriptor := [],
             queue_exit_count := 0, preempt_count := 0, time_of_last_change := 0,
             total_queueing_time := 0 } := by
  refine ⟨?_, by simp, by simp, by simp⟩
  simp only [countBusy]
  rw [List.countP_eq_zero.mpr]
  · simp
  · intro a ha
    rw [List.eq_of_mem_replicate ha]
    simp [freshServer]

theorem smplInv_facility (s : Smpl) (n : String) (k : Nat) (hs : SmplInv s) :
    SmplInv (s.facility n k).1 := by
  rcases hs with ⟨h1, h2, h3⟩
  unfold Smpl.facility
  split
  · exact ⟨h1, h2, h3⟩
  · refine ⟨h1, h2, ?_⟩
    intro fid fd h
    simp only at h
    split at h
    · cases h
      exact facInv_fresh n k
    · exact h3 fid fd h

theorem updFac_facInv (s : Smpl) (fid : Nat) (fd : FacilityData)
    (h3 : ∀ f g, s.facilities f = some g → FacInv g) (hfd : FacInv fd) :
    ∀ f g, (s.updFac fid fd).facilities f = some g → FacInv g := by
  intro f g h
  unfold Smpl.updFac at h
  simp only at h
  split at h
  · cases h
    exact hfd
  · exact h3 f g h

theorem facInv_enqueueFac (clock : ℚ) (fd : FacilityData) (tok : Nat) (prio ec : Int)
    (rem : ℚ) (pool : List EventDescriptor) (hfd : FacInv fd) (hrem : 0 ≤ rem) :
    FacInv (enqueueFac clock fd tok prio ec rem pool).1 := by
  rcases hfd with ⟨c1, c2, c3, c4⟩
  unfold enqueueFac
  refine ⟨c1, ?_, ?_, ?_⟩
  · simp only [length_enlist_facility_evq]
    push_cast
    omega
  · exact pairwise_enlist_facility_evq _ _ c3 c4
  · intro x hx
    rcases mem_enlist_facility_evq x _ _ hx with rfl | hx
    · exact hrem
    · exact c4 x hx

theorem smplInv_request (s : Smpl) (fid tok : Nat) (prio : Int) (hs : SmplInv s) :
    SmplInv (s.request fid tok prio).1 := by
  rcases hs with ⟨h1, h2, h3⟩
  rcases hF : s.facilities fid with _ | fd
  · unfold Smpl.request
    simp only [hF]
    exact ⟨h1, h2, h3⟩
  · rcases h3 fid fd hF with ⟨c1, c2, c3, c4⟩
    unfold Smpl.request
    simp only [hF]
    by_cases hbusy : fd.busy_servers < (fd.servers.length : Int)
    · rw [if_pos hbusy]
      rcases hfind : findServer (fun sv => sv.busy_token == none) fd.servers with _ | ⟨j, sv⟩
      · exact ⟨h1, h2, h3⟩
      · rcases findServer_spec _ _ _ _ hfind with ⟨hj, hp⟩
        have hold : sv.busy_token = none := by simpa using hp
        refine ⟨h1, h2, ?_⟩
        refine updFac_facInv s fid _ h3 ⟨?_, c2, c3, c4⟩
        have hx := countP_set_exchange (fun sv => sv.busy_token.isSome) fd.servers j
          { sv with busy_token := some tok, busy_priority := prio, busy_time := s.clock }
          sv hj
        simp only [hold, Option.isSome_none, Bool.false_eq_true, if_false,
          Option.isSome_some, if_true] at hx
        simp only [countBusy] at c1 ⊢
        rw [c1]
        omega
    · rw [if_neg hbusy]
      rcases hr : enqueueFac s.clock fd tok prio s.last_dispatched_event_code 0
        s.available_event_pool_head with ⟨fd1, pool1⟩
      have hfd1 := facInv_enqueueFac s.clock fd tok prio s.last_dispatched_event_code 0
        s.available_event_pool_head ⟨c1, c2, c3, c4⟩ le_rfl
      rw [hr] at hfd1
      simp only [hr]
      exact ⟨h1, h2, updFac_facInv s fid fd1 h3 hfd1⟩

theorem smplInv_preempt (s : Smpl) (fid tok : Nat) (prio : Int) (hs : SmplInv s) :
    SmplInv (s.preempt fid tok prio).1 := by
  rcases hs with ⟨h1, h2, h3⟩
  rcases hF : s.facilities fid with _ | fd
  · unfold Smpl.preempt
    simp only [hF]
    exact ⟨h1, h2, h3⟩
  · rcases h3 fid fd hF with ⟨c1, c2, c3, c4⟩
    unfold Smpl.preempt
    simp only [hF]
    by_cases hbusy : fd.busy_servers < (fd.servers.length : Int)
    · rw [if_pos hbusy]
      rcases hfind : findServer (fun sv => sv.busy_token == none) fd.servers with _ | ⟨j, sv⟩
      · exact ⟨h1, h2, h3⟩
      · rcases findServer_spec _ _ _ _ hfind with ⟨hj, hp⟩
        have hold : sv.busy_token = none := by simpa using hp
        refine ⟨h1, h2, ?_⟩
        refine updFac_facInv s fid _ h3 ⟨?_, c2, c3, c4⟩
        have hx := countP_set_exchange (fun sv => sv.busy_token.isSome) fd.servers j
          { sv with busy_token := some tok, busy_priority := prio, busy_time := s.clock }
          sv hj
        simp only [hold, Option.isSome_none, Bool.false_eq_true, if_false,
          Option.isSome_some, if_true] at hx
        simp only [countBusy] at c1 ⊢
        rw [c1]
        omega
    · rw [if_neg hbusy]
      rcases hsv : fd.servers with _ | ⟨sv0, svrest⟩
      · exact ⟨h1, h2, h3⟩
      · have hj0 : fd.servers[(0 : Nat)]? = some sv0 := by simp [hsv]
        have hdrop : fd.servers.drop 1 = svrest := by simp [hsv]
        have hvspec := victimGo_spec fd.servers svrest 1 (0, sv0) hj0 hdrop
        rcases hvic : victimGo (0, sv0) 1 svrest with ⟨j, vict⟩
        rw [hvic] at hvspec
        simp only [hvic]
        by_cases hple : prio ≤ vict.busy_priority
        · rw [if_pos hple]
          rcases hr : enqueueFac s.clock fd tok prio s.last_dispatched_event_code 0
            s.available_event_pool_head with ⟨fd1, pool1⟩
          have hfd1 := facInv_enqueueFac s.clock fd tok prio s.last_dispatched_event_code 0
            s.available_event_pool_head ⟨c1, c2, c3, c4⟩ le_rfl
          rw [hr] at hfd1
          simp only [hr]
          exact ⟨h1, h2, updFac_facInv s fid fd1 h3 hfd1⟩
        · rw [if_neg hple]
          rcases hvt : vict.busy_token with _ | vtok
          · exact ⟨h1, h2, h3⟩
          · have hpw := pairwise_extractFirst TLe (fun d => d.token == vtok) s.event_queue_head h1
            have hsub := extractFirst_rest_subset (fun d => d.token == vtok) s.event_queue_head
            have hfnd := extractFirst_found_mem (fun d => d.token == vtok) s.event_queue_head
            rcases hsu : extractFirst (fun d => d.token == vtok) s.event_queue_head with ⟨o, qrest⟩
            rw [hsu] at hpw hsub hfnd
            simp only [hsu]
            rcases o with _ | d
            · exact ⟨h1, h2, h3⟩
            · have hdmem : d ∈ s.event_queue_head := hfnd d rfl
              have hres : 0 ≤ d.trigger_time - s.clock := by
                have := h2 d hdmem
                linarith
              have htte : 0 ≤ (if d.trigger_time - s.clock = 0 then
                  (1 : ℚ) / 10 ^ 99 else d.trigger_time - s.clock) := by
                split
                · positivity
                · exact hres
              rcases hr : enqueueFac s.clock fd vtok vict.busy_priority d.event_code
                (if d.trigger_time - s.clock = 0 then (1 : ℚ) / 10 ^ 99
                  else d.trigger_time - s.clock)
                (d :: s.available_event_pool_head) with ⟨fd1, pool1⟩
              have hfd1 := facInv_enqueueFac s.clock fd vtok vict.busy_priority d.event_code
                (if d.trigger_time - s.clock = 0 then (1 : ℚ) / 10 ^ 99
                  else d.trigger_time - s.clock)
                (d :: s.available_event_pool_head) ⟨c1, c2, c3, c4⟩ htte
              rw [hr] at hfd1
              simp only [hr]
              refine ⟨hpw, fun e he => h2 e (hsub e he), ?_⟩
              rcases hfd1 with ⟨d1, d2, d3, d4⟩
              have hsrv : fd1.servers = fd.servers := by
                have : (enqueueFac s.clock fd vtok vict.busy_priority d.event_code
                    (if d.trigger_time - s.clock = 0 then (1 : ℚ) / 10 ^ 99
                      else d.trigger_time - s.clock)
                    (d :: s.available_event_pool_head)).1.servers = fd.servers := rfl
                rw [hr] at this
                exact this
              refine updFac_facInv s fid _ h3 ⟨?_, d2, d3, d4⟩
              rw [List.set_set, hsrv]
              have hx := countP_set_exchange (fun sv => sv.busy_token.isSome) fd.servers j
                { vict with
                    release_count := vict.release_count + 1
                    total_busy_time := vict.total_busy_time + (s.clock - vict.busy_time)
                    busy_token := some tok
                    busy_priority := prio
                    busy_time := s.clock }
                vict hvspec
              simp only [hvt, Option.isSome_some, if_true] at hx
              simp only [countBusy] at d1 ⊢
              rw [hsrv] at d1
              omega

theorem smplInv_release (s : Smpl) (fid tok : Nat) (hs : SmplInv s) :
    SmplInv (s.release fid tok) := by
  rcases hs with ⟨h1, h2, h3⟩
  rcases hF : s.facilities fid with _ | fd
  · unfold Smpl.release
    simp only [hF]
    exact ⟨h1, h2, h3⟩
  · rcases h3 fid fd hF with ⟨c1, c2, c3, c4⟩
    unfold Smpl.release
    simp only [hF]
    rcases hfind : findServer (fun sv => sv.busy_token == some tok) fd.servers with _ | ⟨j, sv⟩
    · exact ⟨h1, h2, h3⟩
    · rcases findServer_spec _ _ _ _ hfind with ⟨hj, hp⟩
      have hold : sv.busy_token = some tok := by simpa using hp
      have hx1 := countP_set_exchange (fun sv => sv.busy_token.isSome) fd.servers j
        { sv with
            busy_token := none
            release_count := sv.release_count + 1
            total_busy_time := sv.total_busy_time + (s.clock - sv.busy_time) }
        sv hj
      simp only [hold, Option.isSome_some, if_true, Option.isSome_none,
        Bool.false_eq_true, if_false] at hx1
      split
      · rename_i heq
        exact absurd heq (by simp)
      · rename_i jsv heq
        injection heq with heq2
        subst heq2
        dsimp only
        split
        · rename_i hlen
          split
          · rename_i hnil
            refine ⟨h1, h2, updFac_facInv s fid _ h3 ⟨?_, c2, c3, c4⟩⟩
            dsimp only
            simp only [countBusy] at c1 ⊢
            rw [c1]
            omega
          · rename_i d rest hcons
            have hdmem : d ∈ fd.head_event_descriptor := by
              rw [hcons]
              simp
            have hlen2 : fd.event_queue_length = (rest.length : Int) + 1 := by
              rw [c2, hcons]
              simp
            have hc3' : List.Pairwise FacR rest := by
              have hcc := c3
              rw [hcons] at hcc
              exact (List.pairwise_cons.mp hcc).2
            have hc4' : ∀ e ∈ rest, 0 ≤ e.remaining_time_to_event := by
              intro e he
              refine c4 e ?_
              rw [hcons]
              simp [he]
            split
            · rename_i htte
              refine ⟨?_, ?_, updFac_facInv s fid _ h3 ⟨?_, ?_, hc3', hc4'⟩⟩
              · refine List.pairwise_cons.mpr ⟨?_, h1⟩
                intro z hz
                exact h2 z hz
              · intro e he
                rcases List.mem_cons.mp he with rfl | he
                · exact le_refl _
                · exact h2 e he
              · dsimp only
                simp only [countBusy] at c1 ⊢
                rw [c1]
                omega
              · dsimp only
                rw [hlen2]
                omega
            · rename_i htte
              have hrem : 0 ≤ d.remaining_time_to_event := c4 d hdmem
              refine ⟨?_, ?_, updFac_facInv s fid _ h3 ⟨?_, ?_, hc3', hc4'⟩⟩
              · exact pairwise_enlist_evl _ _ h1
              · refine bound_enlist_evl s.clock _ _ h2 ?_
                exact le_add_of_nonneg_right hrem
              · dsimp only
                rw [List.set_set]
                have hx2 := countP_set_exchange (fun sv => sv.busy_token.isSome) fd.servers j
                  { sv with
                      busy_token := some d.token
                      busy_priority := d.priority
                      busy_time := s.clock
                      release_count := sv.release_count + 1
                      total_busy_time := sv.total_busy_time + (s.clock - sv.busy_time) }
                  sv hj
                simp only [hold, Option.isSome_some, if_true] at hx2
                simp only [countBusy] at c1 ⊢
                rw [c1]
                omega
              · dsimp only
                rw [hlen2]
                omega
        · rename_i hlen
          refine ⟨h1, h2, updFac_facInv s fid _ h3 ⟨?_, c2, c3, c4⟩⟩
          dsimp only
          simp only [countBusy] at c1 ⊢
          rw [c1]
          omega

theorem smplInv_apply (s : Smpl) (op : Op) (hs : SmplInv s) : SmplInv (s.apply op) := by
  cases op with
  | init n => exact smplInv_init s n hs
  | schedule ec t tok => exact smplInv_schedule s ec t tok hs
  | cause => exact smplInv_cause s hs
  | cancel ec => exact smplInv_cancel s ec hs
  | unschedule ec tok => exact smplInv_unschedule s ec tok hs
  | newFacility n k => exact smplInv_facility s n k hs
  | request fid tok p => exact smplInv_request s fid tok p hs
  | preempt fid tok p => exact smplInv_preempt s fid tok p hs
  | release fid tok => exact smplInv_release s fid tok hs
  | reset => exact smplInv_reset s hs
  | trace b => exact smplInv_trace s b hs
  | sendto d => exact smplInv_sendto s d hs

theorem smplInv_foldl (l : List Op) (s : Smpl) (hs : SmplInv s) :
    SmplInv (l.foldl Smpl.apply s) := by
  induction l generalizing s with
  | nil => exact hs
  | cons op l ih => exact ih _ (smplInv_apply s op hs)

theorem smplInv_run (ops : List Op) : SmplInv (Smpl.run ops) :=
  smplInv_foldl ops Smpl.initial smplInv_initial

theorem clock_apply_of_not_touches (s : Smpl) (op : Op) (h : op.touchesClock = false) :
    (s.apply op).clock = s.clock := by
  cases op with
  | init n => simp [Op.touchesClock] at h
  | cause => simp [Op.touchesClock] at h
  | schedule ec t tok =>
    show (s.schedule ec t tok).clock = s.clock
    unfold Smpl.schedule
    split <;> rfl
  | cancel ec =>
    show ((s.cancel ec).1).clock = s.clock
    have hrem : ((s.remevent ec).1).clock = s.clock := by
      unfold Smpl.remevent
      dsimp only
      repeat' split
      all_goals rfl
    rcases hr : s.remevent ec with ⟨s1, res⟩
    rw [hr] at hrem
    unfold Smpl.cancel
    simp only [hr]
    rcases res with _ | ⟨t, tt⟩
    · exact hrem
    · exact hrem
  | unschedule ec tok =>
    show ((s.unschedule ec tok).1).clock = s.clock
    unfold Smpl.unschedule
    dsimp only
    repeat' split
    all_goals rfl
  | newFacility n k =>
    show ((s.facility n k).1).clock = s.clock
    unfold Smpl.facility
    split <;> rfl
  | request fid tok p =>
    show ((s.request fid tok p).1).clock = s.clock
    unfold Smpl.request
    dsimp only
    repeat' split
    all_goals rfl
  | preempt fid tok p =>
    show ((s.preempt fid tok p).1).clock = s.clock
    unfold Smpl.preempt
    dsimp only
    repeat' split
    all_goals rfl
  | release fid tok =>
    show (s.release fid tok).clock = s.clock
    unfold Smpl.release
    dsimp only
    repeat' split
    all_goals rfl
  | reset => rfl
  | trace b => rfl
  | sendto d => rfl

theorem cause_clock_mono (s : Smpl) (hs : SmplInv s) : s.clock ≤ ((s.cause).1).clock := by
  rcases hs with ⟨h1, h2, h3⟩
  rcases hq : s.event_queue_head with _ | ⟨d, rest⟩
  · unfold Smpl.cause
    simp only [hq]
    exact le_refl s.clock
  · unfold Smpl.cause
    simp only [hq]
    exact h2 d (by rw [hq]; simp)

theorem cause_empty_id (s : Smpl) (h : s.event_queue_head = []) : s.cause = (s, none) := by
  unfold Smpl.cause
  simp only [h]

/-! ## Claim theorems -/

/-- C1: the code path is a bug. When a time-queue entry matches, `remevent`
removes the earliest matching entry and returns its (token, trigger time)
pair and `cancel` returns its token; but when no entry matches, `remevent`
returns the empty tuple (not the documented none sentinel) and `cancel`,
whose guard only excludes `None`, indexes the empty tuple and raises
IndexError instead of returning the none sentinel. -/
theorem claim_C1_cancel_miss_crashes :
    ((Smpl.run [Op.init "m"]).cancel 5).2 =
      Except.error "IndexError: tuple index out of range" ∧
    ((Smpl.run [Op.init "m"]).remevent 5).2 = RemResult.emptyTuple ∧
    ((Smpl.run [Op.init "m", Op.schedule 7 2 11, Op.schedule 7 3 12]).cancel 7).2 =
      Except.ok 11 ∧
    ((Smpl.run [Op.init "m", Op.schedule 7 2 11, Op.schedule 7 3 12]).remevent 7).2 =
      RemResult.pair 11 2 ∧
    ((Smpl.run [Op.init "m", Op.schedule 7 2 11, Op.schedule 7 3 12]).remevent 7).1.event_queue_head =
      [{ event_code := 7, token := 12, remaining_time_to_event := 0, trigger_time := 3,
         priority := 0 }] := by
  refine ⟨rfl, rfl, ?_, ?_, ?_⟩ <;>
    norm_num [Smpl.run, Smpl.apply, Smpl.cancel, Smpl.remevent, Smpl.schedule, Smpl.init,
      Smpl.initial, SmplRand.stream, enlist_evl, extractFirst, get_elm, freshEvent]

/-- C3: time-queue insertion places a descriptor after every entry whose
trigger time is at most the inserted one (so FIFO among equal times, and
`cause`, which dispatches from the head, serves equal times in insertion
order) and before the first strictly later entry; and after any operation
sequence adjacent time-queue entries are ordered by trigger time. -/
theorem claim_C3_time_queue_order :
    (∀ (e : EventDescriptor) (l : List EventDescriptor),
      enlist_evl e l =
        l.takeWhile (fun x => x.trigger_time ≤ e.trigger_time) ++
          e :: l.dropWhile (fun x => x.trigger_time ≤ e.trigger_time)) ∧
    (∀ ops : List Op, List.Chain' TLe (Smpl.run ops).event_queue_head) :=
  ⟨enlist_evl_position, fun ops => ((smplInv_run ops).1).chain'⟩

/-- C4: facility-queue insertion skips exactly the entries of higher
priority, and equal-priority entries when the inserted one is an ordinary
request (zero remaining time), stopping in front of the first entry of
lower priority or, for a preempted resumption, the first entry of equal
priority; and after any operation sequence every facility queue satisfies
the priority-descending adjacency order with the preempted-first
tie-break. -/
theorem claim_C4_facility_queue_order :
    (∀ (e : EventDescriptor) (l : List EventDescriptor),
      enlist_facility_evq e l =
        l.takeWhile (fun x => !(x.priority < e.priority ||
            (x.priority == e.priority && 0 < e.remaining_time_to_event))) ++
          e :: l.dropWhile (fun x => !(x.priority < e.priority ||
            (x.priority == e.priority && 0 < e.remaining_time_to_event)))) ∧
    (∀ (ops : List Op) (fid : Nat) (fd : FacilityData),
      (Smpl.run ops).facilities fid = some fd →
        List.Chain' FacR fd.head_event_descriptor) :=
  ⟨enlist_facility_evq_position,
    fun ops fid fd h => (((smplInv_run ops).2.2 fid fd h).2.2.1).chain'⟩

theorem claim_C4_witness :
    List.Chain' FacR
      ({ name := "f", servers := [freshServer], total_servers := 1, busy_servers := 0,
         event_queue_length := 0, head_event_descriptor := [], queue_exit_count := 0,
         preempt_count := 0, time_of_last_change := 0,
         total_queueing_time := 0 } : FacilityData).head_event_descriptor :=
  claim_C4_facility_queue_order.2 [Op.init "m", Op.newFacility "f" 1] 1 _ rfl

/-- C8: after any sequence of operations, every registered facility's
busy count equals the number of servers with a holder and its stored
queue length equals the number of descriptors on its queue. -/
theorem claim_C8_counts (ops : List Op) (fid : Nat) (fd : FacilityData)
    (h : (Smpl.run ops).facilities fid = some fd) :
    fd.busy_servers = (countBusy fd.servers : Int) ∧
    fd.event_queue_length = (fd.head_event_descriptor.length : Int) :=
  ⟨((smplInv_run ops).2.2 fid fd h).1, ((smplInv_run ops).2.2 fid fd h).2.1⟩

theorem claim_C8_witness :
    (1 : Int) =
      (countBusy [(⟨some 5, 0, 0, 0, 0⟩ : FacilityServer), freshServer] : Int) :=
  (claim_C8_counts [Op.init "w", Op.newFacility "g" 2, Op.request 1 5 0] 1
    (⟨"g", [⟨some 5, 0, 0, 0, 0⟩, freshServer], 2, 1, 0, [], 0, 0, 0, 0⟩ : FacilityData)
    rfl).1

/-- C9: a successful init always disables trace emission and resets the
output sink to standard output, whatever state the engine was in, in
particular after any prior trace(true) and sendto(sink). -/
theorem claim_C9_init_resets_trace_and_sink :
    ∀ (s : Smpl) (name : String) (b : Bool) (dest : Nat),
      (s.init name).trace_enabled = false ∧
      (s.init name).output_stream = Sink.stdout ∧
      (((s.trace b).sendto dest).init name).trace_enabled = false ∧
      (((s.trace b).sendto dest).init name).output_stream = Sink.stdout :=
  fun _ _ _ _ => ⟨rfl, rfl, rfl, rfl⟩

/-- C10: for a registered facility, when no simulated time has elapsed in
the measurement interval (clock equals the interval start), both U and Lq
return 0 through the guarded branch instead of dividing by the
zero-length interval. -/
theorem claim_C10_zero_interval_guard (s : Smpl) (fid : Nat) (fd : FacilityData)
    (hfd : s.facilities fid = some fd) (hclock : s.clock = s.start) :
    s.U fid = some 0 ∧ s.Lq fid = some 0 := by
  unfold Smpl.U Smpl.Lq
  rw [hfd]
  simp [hclock]

theorem claim_C10_witness :
    (Smpl.run [Op.init "m", Op.newFacility "f" 1]).U 1 = some 0 ∧
    (Smpl.run [Op.init "m", Op.newFacility "f" 1]).Lq 1 = some 0 :=
  claim_C10_zero_interval_guard (Smpl.run [Op.init "m", Op.newFacility "f" 1]) 1 _ rfl rfl

/-- C5 as stated is false: init is a public engine operation other than
cause, and it modifies the clock, resetting it to zero. Here the clock is
1 after dispatching an event, and the subsequent init sets it to 0. -/
theorem claim_C5_counterexample :
    ((Smpl.run [Op.init "m", Op.schedule 1 1 7, Op.cause]).apply (Op.init "m")).clock ≠
      (Smpl.run [Op.init "m", Op.schedule 1 1 7, Op.cause]).clock := by
  norm_num [Smpl.run, Smpl.apply, Smpl.init, Smpl.initial, Smpl.schedule, Smpl.cause,
    SmplRand.stream, enlist_evl, extractFirst, get_elm, freshEvent]

/-- C5 amended: the clock is modified by no public operation other than
cause() and init() (init resets it to zero); after any operation sequence
every pending entry's trigger time is at least the clock, so consecutive
cause() results never decrease the clock; and cause() on an empty time
queue returns the none sentinel and leaves the state unchanged. -/
theorem claim_C5_amended_clock :
    (∀ (s : Smpl) (op : Op), op.touchesClock = false → (s.apply op).clock = s.clock) ∧
    (∀ ops : List Op, ∀ e ∈ (Smpl.run ops).event_queue_head,
      (Smpl.run ops).clock ≤ e.trigger_time) ∧
    (∀ ops : List Op, (Smpl.run ops).clock ≤ (((Smpl.run ops).cause).1).clock) ∧
    (∀ s : Smpl, s.event_queue_head = [] → s.cause = (s, none)) :=
  ⟨clock_apply_of_not_touches,
    fun ops => (smplInv_run ops).2.1,
    fun ops => cause_clock_mono (Smpl.run ops) (smplInv_run ops),
    cause_empty_id⟩

theorem claim_C5_witness :
    ((Smpl.initial.apply (Op.trace true)).clock = Smpl.initial.clock) ∧
    ((Smpl.run [Op.init "m", Op.schedule 2 3 4]).clock ≤
      ((⟨2, 4, 0, 0 + 3, 0⟩ : EventDescriptor)).trigger_time) ∧
    ((Smpl.run []).clock ≤ (((Smpl.run []).cause).1).clock) ∧
    (Smpl.initial.cause = (Smpl.initial, none)) :=
  ⟨claim_C5_amended_clock.1 Smpl.initial (Op.trace true) rfl,
    claim_C5_amended_clock.2.1 [Op.init "m", Op.schedule 2 3 4]
      (⟨2, 4, 0, 0 + 3, 0⟩ : EventDescriptor)
      (by norm_num [Smpl.run, Smpl.apply, Smpl.init, Smpl.initial, Smpl.schedule,
        SmplRand.stream, enlist_evl, get_elm, freshEvent]),
    claim_C5_amended_clock.2.2.1 [],
    claim_C5_amended_clock.2.2.2 Smpl.initial rfl⟩

/-- C6: when release frees a server and the facility queue is non-empty,
the head descriptor is dequeued; an ordinary waiter (zero remaining time)
is given trigger_time = clock and spliced at the head of the time queue,
while a preempted resumption immediately re-reserves the freed server
(holder and priority from the descriptor, hold start = clock, busy count
back up) and re-enters the time queue by the ordinary ascending rule at
clock + remaining time. -/
theorem claim_C6_release_drain (s : Smpl) (fid tok : Nat) (fd : FacilityData)
    (j : Nat) (sv : FacilityServer) (d : EventDescriptor) (rest : List EventDescriptor)
    (hfd : s.facilities fid = some fd)
    (hfind : findServer (fun sv => sv.busy_token == some tok) fd.servers = some (j, sv))
    (hlen : 0 < fd.event_queue_length)
    (hhead : fd.head_event_descriptor = d :: rest) :
    (d.remaining_time_to_event = 0 →
      (s.release fid tok).event_queue_head =
          { d with trigger_time := s.clock } :: s.event_queue_head ∧
      (s.release fid tok).facilities fid = some
        { fd with
            servers := fd.servers.set j
              { sv with
                  busy_token := none,
                  release_count := sv.release_count + 1,
                  total_busy_time := sv.total_busy_time + (s.clock - sv.busy_time) },
            busy_servers := fd.busy_servers - 1,
            total_queueing_time := fd.total_queueing_time +
              (fd.event_queue_length : ℚ) * (s.clock - fd.time_of_last_change),
            event_queue_length := fd.event_queue_length - 1,
            queue_exit_count := fd.queue_exit_count + 1,
            time_of_last_change := s.clock,
            head_event_descriptor := rest }) ∧
    (d.remaining_time_to_event ≠ 0 →
      (s.release fid tok).event_queue_head =
          enlist_evl { d with trigger_time := s.clock + d.remaining_time_to_event }
            s.event_queue_head ∧
      (s.release fid tok).facilities fid = some
        { fd with
            servers := fd.servers.set j
              { sv with
                  busy_token := some d.token,
                  busy_priority := d.priority,
                  busy_time := s.clock,
                  release_count := sv.release_count + 1,
                  total_busy_time := sv.total_busy_time + (s.clock - sv.busy_time) },
            busy_servers := fd.busy_servers - 1 + 1,
            total_queueing_time := fd.total_queueing_time +
              (fd.event_queue_length : ℚ) * (s.clock - fd.time_of_last_change),
            event_queue_length := fd.event_queue_length - 1,
            queue_exit_count := fd.queue_exit_count + 1,
            time_of_last_change := s.clock,
            head_event_descriptor := rest }) := by
  constructor
  · intro h0
    unfold Smpl.release
    simp only [hfd, hfind]
    rw [if_pos hlen]
    simp only [hhead]
    rw [if_pos h0]
    constructor
    · rfl
    · simp [Smpl.updFac]
  · intro hne
    unfold Smpl.release
    simp only [hfd, hfind]
    rw [if_pos hlen]
    simp only [hhead]
    rw [if_neg hne]
    constructor
    · rfl
    · simp [Smpl.updFac, List.set_set]

theorem claim_C6_witness :
    (stateC6.release 1 10).event_queue_head = [⟨0, 20, 0, 0, 0⟩] ∧
    (stateC6.release 1 10).facilities 1 = some
      (⟨"f", [⟨none, 0, 0, 0 + 1, 0 + (0 - 0)⟩], 1, 1 - 1,
        1 - 1, [], 0 + 1, 0, 0, 0 + ((1 : Int) : ℚ) * (0 - 0)⟩ : FacilityData) :=
  by
    have h := claim_C6_release_drain stateC6 1 10 facC6 0 ⟨some 10, 0, 0, 0, 0⟩
      ⟨0, 20, 0, 0, 0⟩ [] rfl rfl (by decide) rfl
    exact h.1 rfl

/-- The victim scan returns a holder priority that is minimal among the
accumulator and every remaining server. -/
theorem victimGo_min (rest : List FacilityServer) :
    ∀ (i : Nat) (cur : Nat × FacilityServer),
      (victimGo cur i rest).2.busy_priority ≤ cur.2.busy_priority ∧
      ∀ x ∈ rest, (victimGo cur i rest).2.busy_priority ≤ x.busy_priority := by
  induction rest with
  | nil =>
    intro i cur
    exact ⟨le_refl _, by simp⟩
  | cons sv svs ih =>
    intro i cur
    rw [victimGo]
    by_cases h : sv.busy_priority < cur.2.busy_priority
    · rw [if_pos h]
      rcases ih (i + 1) (i, sv) with ⟨ha, hb⟩
      refine ⟨le_trans ha (le_of_lt h), ?_⟩
      intro x hx
      rcases List.mem_cons.mp hx with rfl | hx
      · exact ha
      · exact hb x hx
    · rw [if_neg h]
      rcases ih (i + 1) cur with ⟨ha, hb⟩
      refine ⟨ha, ?_⟩
      intro x hx
      rcases List.mem_cons.mp hx with rfl | hx
      · exact le_trans ha (not_lt.mp h)
      · exact hb x hx

/-- C7 as stated is false on the 1e-99 floor: when the suspended event's
residual time is strictly between 0 and 1e-99 (here 1e-100), the code
enqueues the residual itself, whereas max(residual, 1e-99) would be
1e-99. -/
theorem claim_C7_counterexample :
    ((stateC7.preempt 1 20 5).1.facilities 1).map
        (fun fd => fd.head_event_descriptor.map
          (fun e => e.remaining_time_to_event)) = some [1 / 10 ^ 100] ∧
    ¬ ((1 : ℚ) / 10 ^ 100 = max ((1 : ℚ) / 10 ^ 100) (1 / 10 ^ 99)) := by
  constructor
  · norm_num [stateC7, facC7, Smpl.preempt, Smpl.initial, victimGo, findServer,
      extractFirst, enqueueFac, get_elm, enlist_facility_evq, Smpl.updFac, freshEvent]
  · rw [max_eq_right (by norm_num)]
    norm_num

/-- C7 amended: with all servers busy, the victim returned by the scan is
a holder of minimal priority (first-found, so ties go to the earliest
server); a preempting priority at most the victim's enqueues the request
and returns QUEUED; a strictly higher priority detaches the victim's
pending time-queue event and enqueues a descriptor carrying the victim's
token, its former priority, the suspended event's code, and a remaining
time equal to the residual trigger_time - clock, except that a residual
of exactly zero is replaced by 1e-99 (residuals strictly between 0 and
1e-99 are kept as they are); then the preempting token is installed on
the victim's server and RESERVED is returned. -/
theorem claim_C7_preempt_amended (s : Smpl) (fid tok : Nat) (prio : Int)
    (fd : FacilityData) (sv0 : FacilityServer) (svrest : List FacilityServer)
    (j : Nat) (vict : FacilityServer)
    (hfd : s.facilities fid = some fd)
    (hsv : fd.servers = sv0 :: svrest)
    (hnb : ¬ fd.busy_servers < (fd.servers.length : Int))
    (hvic : victimGo (0, sv0) 1 svrest = (j, vict)) :
    (vict.busy_priority ≤ sv0.busy_priority ∧
      ∀ x ∈ svrest, vict.busy_priority ≤ x.busy_priority) ∧
    (prio ≤ vict.busy_priority →
      (s.preempt fid tok prio).2 = some QUEUED ∧
      (s.preempt fid tok prio).1.facilities fid = some
        (enqueueFac s.clock fd tok prio s.last_dispatched_event_code 0
          s.available_event_pool_head).1) ∧
    (∀ (vtok : Nat) (d : EventDescriptor) (qrest : List EventDescriptor),
      vict.busy_token = some vtok →
      ¬ prio ≤ vict.busy_priority →
      extractFirst (fun e => e.token == vtok) s.event_queue_head = (some d, qrest) →
      (s.preempt fid tok prio).2 = some RESERVED ∧
      (s.preempt fid tok prio).1.event_queue_head = qrest ∧
      (s.preempt fid tok prio).1.facilities fid = some
        { (enqueueFac s.clock fd vtok vict.busy_priority d.event_code
            (if d.trigger_time - s.clock = 0 then (1 : ℚ) / 10 ^ 99
              else d.trigger_time - s.clock)
            (d :: s.available_event_pool_head)).1 with
            servers := (fd.servers.set j
              { vict with
                  release_count := vict.release_count + 1,
                  total_busy_time := vict.total_busy_time + (s.clock - vict.busy_time) }).set j
              { vict with
                  release_count := vict.release_count + 1,
                  total_busy_time := vict.total_busy_time + (s.clock - vict.busy_time),
                  busy_token := some tok,
                  busy_priority := prio,
                  busy_time := s.clock },
            busy_servers := fd.busy_servers - 1 + 1,
            preempt_count := fd.preempt_count + 1 }) := by
  refine ⟨?_, ?_, ?_⟩
  · rcases victimGo_min svrest 1 (0, sv0) with ⟨ha, hb⟩
    rw [hvic] at ha hb
    exact ⟨ha, hb⟩
  · intro hple
    unfold Smpl.preempt
    simp only [hfd]
    rw [if_neg hnb]
    simp only [hsv, hvic]
    rw [if_pos hple]
    constructor
    · rfl
    · simp [Smpl.updFac]
  · intro vtok d qrest hvt hple hsu
    unfold Smpl.preempt
    simp only [hfd]
    rw [if_neg hnb]
    simp only [hsv, hvic]
    rw [if_neg hple]
    simp only [hvt, hsu]
    refine ⟨trivial, trivial, ?_⟩
    simp [Smpl.updFac, enqueueFac, get_elm, hsv]

theorem claim_C7_witness :
    (stateC7.preempt 1 20 0).2 = some QUEUED ∧
    (stateC7.preempt 1 20 0).1.facilities 1 = some
      (enqueueFac stateC7.clock facC7 20 0 stateC7.last_dispatched_event_code 0
        stateC7.available_event_pool_head).1 := by
  have h := claim_C7_preempt_amended stateC7 1 20 0 facC7 ⟨some 10, 0, 0, 0, 0⟩ [] 0
    ⟨some 10, 0, 0, 0, 0⟩ rfl rfl (by decide) rfl
  exact h.2.1 (by decide)
